import Mathlib

/-!
Verification development for the "agenda-pareja" web application.

The repository's date handling rests on the JavaScript `Date` object
(`Date.UTC`, `getUTCFullYear`/`getUTCMonth`/`getUTCDate`/`getUTCHours`/
`getUTCMinutes`, `toISOString`/`new Date(iso)`) and on
`Intl.DateTimeFormat` with the `America/Guayaquil` time zone.  This file
embeds that machinery following the ECMAScript specification:

* an absolute instant is represented by its epoch-millisecond time value
  (an `Int`); `new Date(ms).toISOString()` followed by `new Date(iso)` is
  the identity on time values (ISO-8601 with millisecond precision is a
  lossless encoding), so the ISO-string intermediate is not materialised;
* `Date.UTC` is modelled by `jsDateUTC` below, including `MakeFullYear`'s
  mapping of years 0..99 to 1900..1999 and `MakeDay`'s month folding;
* the `getUTC*` field readers follow `YearFromTime`/`MonthFromTime`/
  `DateFromTime`/`HourFromTime`/`MinFromTime` (proleptic Gregorian);
* `Intl.DateTimeFormat` with time zone `America/Guayaquil` is modelled as
  the fixed offset UTC-5 (that zone has observed UTC-5 with no DST
  throughout the application's operating era, which is also the spec's
  stated convention).

Row-store operations (select/insert/update/delete/upsert against the
hosted relational store) are modelled on explicit Lean lists of rows.
-/

namespace Agenda

/-- Milliseconds per civil day, `msPerDay` of the ECMAScript date model. -/
def msPerDay : Int := 86400000

/-- Milliseconds per hour. -/
def msPerHour : Int := 3600000

/-- Milliseconds per minute. -/
def msPerMin : Int := 60000

/-- ECMAScript leap-year test (`DaysInYear(y) = 366`): divisible by 4 and
not by 100, or divisible by 400. -/
def isLeap (y : Int) : Bool :=
  decide ((y % 4 = 0 ∧ ¬ y % 100 = 0) ∨ y % 400 = 0)

/-- ECMAScript `DayFromYear(y)`: the day number of 1 January of year `y`,
counted from the epoch day 1970-01-01. -/
def dayFromYear (y : Int) : Int :=
  365 * (y - 1970) + (y - 1969) / 4 - (y - 1901) / 100 + (y - 1601) / 400

/-- Day-of-year of the first day of (0-based) month `mn`, per the ranges in
ECMAScript `MonthFromTime` (leap adds one day from March on). -/
def monthStart (mn : Int) (leap : Bool) : Int :=
  (if mn ≤ 0 then 0
   else if mn = 1 then 31
   else if mn = 2 then 59
   else if mn = 3 then 90
   else if mn = 4 then 120
   else if mn = 5 then 151
   else if mn = 6 then 181
   else if mn = 7 then 212
   else if mn = 8 then 243
   else if mn = 9 then 273
   else if mn = 10 then 304
   else 334)
  + (if leap then (if 2 ≤ mn then 1 else 0) else 0)

/-- ECMAScript `MonthFromTime` expressed on a day-of-year: the 0-based
month a day-of-year falls in. -/
def monthFromDoy (doy : Int) (leap : Bool) : Int :=
  let L : Int := if leap then 1 else 0
  if doy < 31 then 0
  else if doy < 59 + L then 1
  else if doy < 90 + L then 2
  else if doy < 120 + L then 3
  else if doy < 151 + L then 4
  else if doy < 181 + L then 5
  else if doy < 212 + L then 6
  else if doy < 243 + L then 7
  else if doy < 273 + L then 8
  else if doy < 304 + L then 9
  else if doy < 334 + L then 10
  else 11

/-- Number of days of the 0-based month `mn` in a year with leap flag
`leap` (Gregorian month lengths). -/
def daysInMonth (mn : Int) (leap : Bool) : Int :=
  if mn = 0 then 31
  else if mn = 1 then (if leap then 29 else 28)
  else if mn = 2 then 31
  else if mn = 3 then 30
  else if mn = 4 then 31
  else if mn = 5 then 30
  else if mn = 6 then 31
  else if mn = 7 then 31
  else if mn = 8 then 30
  else if mn = 9 then 31
  else if mn = 10 then 30
  else 31

/-- Bounded search realising ECMAScript `YearFromTime` on one 400-year
era: starting at year `y`, advance while the next year still starts on or
before day `w`.  Fuel 400 suffices inside one era. -/
def yfdGo (w : Int) : Nat → Int → Int
  | 0, y => y
  | n + 1, y => if dayFromYear (y + 1) ≤ w then yfdGo w n (y + 1) else y

/-- ECMAScript `YearFromTime` on a day number `z` (counted from the
epoch): the unique year `y` with `DayFromYear(y) ≤ z < DayFromYear(y+1)`.
Computed by reducing `z` modulo the 146097-day Gregorian era and searching
the 400 years of the era that starts in 1970. -/
def yearFromDay (z : Int) : Int :=
  400 * (z / 146097) + yfdGo (z % 146097) 400 1970

/-- ECMAScript `DayWithinYear` of a day number. -/
def doyOfDay (z : Int) : Int := z - dayFromYear (yearFromDay z)

/-- ECMAScript `MonthFromTime` (0-based month) of a day number. -/
def monthOfDay (z : Int) : Int :=
  monthFromDoy (doyOfDay z) (isLeap (yearFromDay z))

/-- ECMAScript `DateFromTime` (day of month, 1-based) of a day number. -/
def domOfDay (z : Int) : Int :=
  doyOfDay z - monthStart (monthOfDay z) (isLeap (yearFromDay z)) + 1

/-- ECMAScript `MakeFullYear`: integral years 0..99 denote 1900..1999. -/
def jsFullYear (y : Int) : Int := if 0 ≤ y ∧ y ≤ 99 then 1900 + y else y

/-- ECMAScript `Date.UTC(y, m, d, hh, mi, 0, 0)` as a time value, with
`m` 0-based as in JavaScript: `MakeFullYear` sends 0..99 to 1900..1999,
`MakeDay` folds the month into the year, and day/hour/minute overflow is
plain linear arithmetic on the time value. -/
def jsDateUTC (y m d hh mi : Int) : Int :=
  (dayFromYear (jsFullYear y + m / 12)
      + monthStart (m % 12) (isLeap (jsFullYear y + m / 12)) + (d - 1)) * msPerDay
    + hh * msPerHour + mi * msPerMin

theorem dayFromYear_shift (q r : Int) :
    dayFromYear (400 * q + r) = 146097 * q + dayFromYear r := by
  unfold dayFromYear
  omega

theorem isLeap_shift (q r : Int) : isLeap (400 * q + r) = isLeap r := by
  unfold isLeap
  rw [decide_eq_decide]
  omega

set_option maxRecDepth 4000 in
theorem dayFromYear_succ_base :
    ∀ r : Nat, r < 400 →
      dayFromYear ((r : Int) + 1)
        = dayFromYear (r : Int) + (if isLeap (r : Int) then 366 else 365) := by
  decide

theorem dayFromYear_succ (y : Int) :
    dayFromYear (y + 1) = dayFromYear y + (if isLeap y then 366 else 365) := by
  obtain ⟨q, r, hr0, hr400, rfl⟩ :
      ∃ q r : Int, 0 ≤ r ∧ r < 400 ∧ y = 400 * q + r :=
    ⟨y / 400, y % 400, by omega, by omega, by omega⟩
  have hb := dayFromYear_succ_base r.toNat (by omega)
  rw [Int.toNat_of_nonneg hr0] at hb
  have h1 : 400 * q + r + 1 = 400 * q + (r + 1) := by ring
  rw [h1, dayFromYear_shift, hb, dayFromYear_shift, isLeap_shift]
  ring

theorem dayFromYear_strictMono : StrictMono dayFromYear := by
  apply strictMono_int_of_lt_succ
  intro y
  have h := dayFromYear_succ y
  cases hl : isLeap y <;> rw [hl] at h <;> simp at h <;> omega

theorem dayFromYear_mono : Monotone dayFromYear :=
  dayFromYear_strictMono.monotone

theorem yfdGo_spec (w : Int) :
    ∀ (n : Nat) (y : Int), dayFromYear y ≤ w → w < dayFromYear (y + (n : Int)) →
      dayFromYear (yfdGo w n y) ≤ w ∧ w < dayFromYear (yfdGo w n y + 1) := by
  intro n
  induction n with
  | zero =>
    intro y h1 h2
    norm_num at h2
    exact absurd h2 (not_lt.mpr h1)
  | succ n ih =>
    intro y h1 h2
    rw [yfdGo]
    by_cases h : dayFromYear (y + 1) ≤ w
    · rw [if_pos h]
      apply ih (y + 1) h
      have he : y + 1 + (n : Int) = y + ((n : Int) + 1) := by ring
      rw [he]
      push_cast at h2 ⊢
      linarith [h2]
    · rw [if_neg h]
      exact ⟨h1, not_le.mp h⟩

theorem dayFromYear_1970 : dayFromYear 1970 = 0 := by decide

theorem dayFromYear_2370 : dayFromYear 2370 = 146097 := by decide

theorem yearFromDay_spec (z : Int) :
    dayFromYear (yearFromDay z) ≤ z ∧ z < dayFromYear (yearFromDay z + 1) := by
  have hz : 146097 * (z / 146097) + z % 146097 = z := Int.ediv_add_emod z 146097
  have hw0 : 0 ≤ z % 146097 := Int.emod_nonneg z (by norm_num)
  have hw1 : z % 146097 < 146097 := Int.emod_lt_of_pos z (by norm_num)
  have hgo := yfdGo_spec (z % 146097) 400 1970 (by rw [dayFromYear_1970]; exact hw0)
    (by norm_num [dayFromYear_2370]; exact hw1)
  unfold yearFromDay
  constructor
  · have h := dayFromYear_shift (z / 146097) (yfdGo (z % 146097) 400 1970)
    rw [h]
    omega
  · have h := dayFromYear_shift (z / 146097) (yfdGo (z % 146097) 400 1970 + 1)
    have he : 400 * (z / 146097) + yfdGo (z % 146097) 400 1970 + 1
        = 400 * (z / 146097) + (yfdGo (z % 146097) 400 1970 + 1) := by ring
    rw [he, h]
    omega

theorem yearFromDay_eq_of (z y : Int) (h1 : dayFromYear y ≤ z)
    (h2 : z < dayFromYear (y + 1)) : yearFromDay z = y := by
  have hs := yearFromDay_spec z
  by_contra hne
  rcases lt_or_gt_of_ne hne with h | h
  · have hle : yearFromDay z + 1 ≤ y := Int.lt_iff_add_one_le.mp h
    have := dayFromYear_mono hle
    linarith [hs.2]
  · have hle : y + 1 ≤ yearFromDay z := Int.lt_iff_add_one_le.mp h
    have := dayFromYear_mono hle
    linarith [hs.1]

set_option maxRecDepth 4000 in
theorem month_table_fwd :
    ∀ (leap : Bool) (mn : Nat), mn < 12 → ∀ d : Nat, d < 32 → 1 ≤ d →
      ((d : Int) ≤ daysInMonth (mn : Int) leap →
        monthFromDoy (monthStart (mn : Int) leap + (d : Int) - 1) leap = (mn : Int) ∧
        0 ≤ monthStart (mn : Int) leap + (d : Int) - 1 ∧
        monthStart (mn : Int) leap + (d : Int) - 1 < (if leap then 366 else 365)) := by
  decide

set_option maxRecDepth 4000 in
theorem month_table_inv :
    ∀ (leap : Bool) (doy : Nat), doy < 366 →
      ((doy : Int) < (if leap then 366 else 365) →
        0 ≤ monthFromDoy (doy : Int) leap ∧ monthFromDoy (doy : Int) leap < 12 ∧
        monthStart (monthFromDoy (doy : Int) leap) leap ≤ (doy : Int) ∧
        1 ≤ (doy : Int) - monthStart (monthFromDoy (doy : Int) leap) leap + 1 ∧
        (doy : Int) - monthStart (monthFromDoy (doy : Int) leap) leap + 1
          ≤ daysInMonth (monthFromDoy (doy : Int) leap) leap) := by
  decide

/-- Decimal digit character, `'0'` .. `'9'`. -/
def digitChar (n : Nat) : Char :=
  match n with
  | 0 => '0' | 1 => '1' | 2 => '2' | 3 => '3' | 4 => '4'
  | 5 => '5' | 6 => '6' | 7 => '7' | 8 => '8' | _ => '9'

/-- Decimal digits of a natural number in front of an accumulator, most
significant first; the first argument is fuel (structural recursion, so
that the definition evaluates inside the kernel).  Fuel `n` always
suffices for rendering `n`. -/
def natDigitsF : Nat → Nat → List Char → List Char
  | 0, n, acc => digitChar (n % 10) :: acc
  | f + 1, n, acc =>
    if n < 10 then digitChar n :: acc
    else natDigitsF f (n / 10) (digitChar (n % 10) :: acc)

/-- Decimal digits of a natural number, most significant first. -/
def natDigits (n : Nat) : List Char := natDigitsF n n []

/-- The characters JavaScript `String(i)` produces for an integral
number: decimal digits, preceded by `'-'` when negative. -/
def jsIntDigits (i : Int) : List Char :=
  if i < 0 then '-' :: natDigits (-i).toNat else natDigits i.toNat

/-- The characters of JavaScript `String(i).padStart(2, "0")`. -/
def pad2 (i : Int) : List Char :=
  if (jsIntDigits i).length < 2 then '0' :: jsIntDigits i else jsIntDigits i

/-- Numeric value of a digit character. -/
def digitVal (c : Char) : Nat := c.toNat - 48

/-- Value of a list of decimal digit characters; this is what JavaScript
`Number(s)` yields on a non-empty all-digit string (leading zeros are
plain decimal). -/
def parseNatDigits (l : List Char) : Nat :=
  l.foldl (fun a c => 10 * a + digitVal c) 0

/-- `parseNatDigits`, as the integral number JavaScript obtains. -/
def parseDigits (l : List Char) : Int := (parseNatDigits l : Int)

/-- JavaScript `s.split(sep)` for a single-character separator, on the
character lists: split into the (possibly empty) groups between
occurrences of `c`. -/
def splitOnChar (c : Char) (l : List Char) : List (List Char) :=
  match l with
  | [] => [[]]
  | x :: xs =>
    if x = c then [] :: splitOnChar c xs
    else
      match splitOnChar c xs with
      | [] => [[x]]
      | g :: gs => (x :: g) :: gs

theorem natDigitsF_append : ∀ (f n : Nat) (acc : List Char),
    natDigitsF f n acc = natDigitsF f n [] ++ acc := by
  intro f
  induction f with
  | zero => intro n acc; rfl
  | succ f ih =>
    intro n acc
    by_cases h : n < 10
    · rw [natDigitsF, if_pos h, natDigitsF, if_pos h]
      rfl
    · rw [natDigitsF, if_neg h, natDigitsF, if_neg h,
        ih (n / 10) (digitChar (n % 10) :: acc), ih (n / 10) [digitChar (n % 10)]]
      simp

theorem natDigitsF_stable : ∀ (f n : Nat), n ≤ f →
    ∀ acc, natDigitsF f n acc = natDigitsF n n acc := by
  intro f
  induction f using Nat.strong_induction_on with
  | _ f ih =>
    intro n hn acc
    match f, hn with
    | 0, hn =>
      have h0 : n = 0 := by omega
      subst h0
      rfl
    | f + 1, hn =>
      by_cases h : n < 10
      · rw [natDigitsF, if_pos h]
        match n, h with
        | 0, _ => rfl
        | m + 1, h => rw [natDigitsF, if_pos h]
      · rw [natDigitsF, if_neg h]
        rw [ih f (by omega) (n / 10) (by omega)]
        match n, h with
        | m + 1, h =>
          rw [natDigitsF, if_neg h]
          rw [ih m (by omega) ((m + 1) / 10) (by omega)]

theorem natDigits_small : ∀ n : Nat, n < 10 → natDigits n = [digitChar n] := by
  decide

theorem natDigits_step (n : Nat) (h : ¬ n < 10) :
    natDigits n = natDigits (n / 10) ++ [digitChar (n % 10)] := by
  match n, h with
  | m + 1, h =>
    rw [natDigits, natDigitsF, if_neg h]
    rw [natDigitsF_stable m ((m + 1) / 10) (by omega)]
    rw [natDigitsF_append]
    rfl

theorem digitVal_digitChar : ∀ k : Nat, k < 10 → digitVal (digitChar k) = k := by
  decide

theorem parseNatDigits_append (l₁ l₂ : List Char) :
    parseNatDigits (l₁ ++ l₂)
      = (l₂.foldl (fun a c => 10 * a + digitVal c) (parseNatDigits l₁)) := by
  rw [parseNatDigits, List.foldl_append]
  rfl

theorem parseNatDigits_natDigits (n : Nat) :
    parseNatDigits (natDigits n) = n := by
  induction n using Nat.strong_induction_on with
  | _ n ih =>
    by_cases h : n < 10
    · rw [natDigits_small n h]
      show 10 * 0 + digitVal (digitChar n) = n
      rw [digitVal_digitChar n h]
      omega
    · have hlt : n / 10 < n := Nat.div_lt_self (by omega) (by omega)
      rw [natDigits_step n h, parseNatDigits_append, ih (n / 10) hlt]
      show 10 * (n / 10) + digitVal (digitChar (n % 10)) = n
      rw [digitVal_digitChar (n % 10) (by omega)]
      omega

theorem natDigits_ne_nil (n : Nat) : natDigits n ≠ [] := by
  by_cases h : n < 10
  · rw [natDigits_small n h]
    simp
  · rw [natDigits_step n h]
    simp

theorem digitChar_range : ∀ k : Nat, k < 10 →
    48 ≤ (digitChar k).toNat ∧ (digitChar k).toNat ≤ 57 := by
  decide

theorem natDigits_chars (n : Nat) :
    ∀ c ∈ natDigits n, 48 ≤ c.toNat ∧ c.toNat ≤ 57 := by
  induction n using Nat.strong_induction_on with
  | _ n ih =>
    intro c hc
    by_cases h : n < 10
    · rw [natDigits_small n h] at hc
      rcases List.mem_singleton.mp hc with rfl
      exact digitChar_range n h
    · have hlt : n / 10 < n := Nat.div_lt_self (by omega) (by omega)
      rw [natDigits_step n h] at hc
      rcases List.mem_append.mp hc with h1 | h1
      · exact ih (n / 10) hlt c h1
      · rcases List.mem_singleton.mp h1 with rfl
        exact digitChar_range (n % 10) (by omega)

theorem splitOnChar_not_mem {c : Char} {xs : List Char} (h : c ∉ xs) :
    splitOnChar c xs = [xs] := by
  induction xs with
  | nil => rfl
  | cons x xs ih =>
    rw [splitOnChar]
    rw [if_neg (by intro he; exact h (he ▸ List.mem_cons_self x xs))]
    rw [ih (fun hm => h (List.mem_cons_of_mem x hm))]

theorem splitOnChar_append {c : Char} {xs : List Char} (ys : List Char)
    (h : c ∉ xs) :
    splitOnChar c (xs ++ c :: ys) = xs :: splitOnChar c ys := by
  induction xs with
  | nil =>
    rw [List.nil_append, splitOnChar, if_pos rfl]
  | cons x xs ih =>
    rw [List.cons_append, splitOnChar]
    rw [if_neg (by intro he; exact h (he ▸ List.mem_cons_self x xs))]
    rw [ih (fun hm => h (List.mem_cons_of_mem x hm))]

theorem parseNatDigits_cons_zero (l : List Char) :
    parseNatDigits ('0' :: l) = parseNatDigits l := by
  rw [parseNatDigits, List.foldl_cons]
  rfl

theorem parseNatDigits_replicate_zero (k : Nat) (l : List Char) :
    parseNatDigits (List.replicate k '0' ++ l) = parseNatDigits l := by
  induction k with
  | zero => rw [List.replicate_zero, List.nil_append]
  | succ k ih =>
    rw [List.replicate_succ, List.cons_append, parseNatDigits_cons_zero, ih]

theorem parseDigits_pad2 (i : Int) (h : 0 ≤ i) : parseDigits (pad2 i) = i := by
  have hj : jsIntDigits i = natDigits i.toNat := by
    rw [jsIntDigits, if_neg (not_lt.mpr h)]
  rw [pad2]
  simp only [hj]
  by_cases hl : (natDigits i.toNat).length < 2
  · rw [if_pos hl, parseDigits, parseNatDigits_cons_zero, parseNatDigits_natDigits]
    omega
  · rw [if_neg hl, parseDigits, parseNatDigits_natDigits]
    omega

theorem pad2_chars (i : Int) (h : 0 ≤ i) :
    ∀ c ∈ pad2 i, 48 ≤ c.toNat ∧ c.toNat ≤ 57 := by
  intro c hc
  have hj : jsIntDigits i = natDigits i.toNat := by
    rw [jsIntDigits, if_neg (not_lt.mpr h)]
  rw [pad2] at hc
  simp only [hj] at hc
  by_cases hl : (natDigits i.toNat).length < 2
  · rw [if_pos hl] at hc
    rcases List.mem_cons.mp hc with rfl | hm
    · exact ⟨by decide, by decide⟩
    · exact natDigits_chars i.toNat c hm
  · rw [if_neg hl] at hc
    exact natDigits_chars i.toNat c hc

theorem digit_ne_dash {c : Char} (h : 48 ≤ c.toNat ∧ c.toNat ≤ 57) : c ≠ '-' := by
  intro he
  rw [he] at h
  revert h
  decide

theorem digit_ne_T {c : Char} (h : 48 ≤ c.toNat ∧ c.toNat ≤ 57) : c ≠ 'T' := by
  intro he
  rw [he] at h
  revert h
  decide

theorem digit_ne_colon {c : Char} (h : 48 ≤ c.toNat ∧ c.toNat ≤ 57) : c ≠ ':' := by
  intro he
  rw [he] at h
  revert h
  decide

theorem natDigits_length_lt_100 :
    ∀ n : Nat, n < 100 → (natDigits n).length = if n < 10 then 1 else 2 := by
  decide

theorem natDigits_length_4 :
    ∀ n : Nat, n < 10000 → 1000 ≤ n → (natDigits n).length = 4 := by
  intro n h1 h2
  have s1 : natDigits n = natDigits (n / 10) ++ [digitChar (n % 10)] :=
    natDigits_step n (by omega)
  have s2 : natDigits (n / 10) = natDigits (n / 10 / 10) ++ [digitChar (n / 10 % 10)] :=
    natDigits_step (n / 10) (by omega)
  have s3 : natDigits (n / 10 / 10)
      = natDigits (n / 10 / 10 / 10) ++ [digitChar (n / 10 / 10 % 10)] :=
    natDigits_step (n / 10 / 10) (by omega)
  have s4 : (natDigits (n / 10 / 10 / 10)).length = 1 := by
    have hb : n / 10 / 10 / 10 < 10 := by omega
    rw [natDigits_small _ hb]
    rfl
  rw [s1, s2, s3]
  simp [s4]

theorem jsIntDigits_nonneg (i : Int) (h : 0 ≤ i) :
    jsIntDigits i = natDigits i.toNat := by
  rw [jsIntDigits, if_neg (not_lt.mpr h)]

theorem parseDigits_jsIntDigits (i : Int) (h : 0 ≤ i) :
    parseDigits (jsIntDigits i) = i := by
  rw [jsIntDigits_nonneg i h, parseDigits, parseNatDigits_natDigits]
  omega

theorem natDigits_inj {m n : Nat} (h : natDigits m = natDigits n) : m = n := by
  have := parseNatDigits_natDigits m
  rw [h, parseNatDigits_natDigits] at this
  omega

theorem jsIntDigits_inj {i j : Int} (h : jsIntDigits i = jsIntDigits j) :
    i = j := by
  rw [jsIntDigits, jsIntDigits] at h
  by_cases hi : i < 0 <;> by_cases hj : j < 0
  · rw [if_pos hi, if_pos hj] at h
    have := natDigits_inj (List.cons.inj h).2
    omega
  · rw [if_pos hi, if_neg hj] at h
    have hd := natDigits_chars j.toNat '-' (h ▸ List.mem_cons_self '-' _)
    exact absurd rfl (digit_ne_dash hd)
  · rw [if_neg hi, if_pos hj] at h
    have hd := natDigits_chars i.toNat '-' (h.symm ▸ List.mem_cons_self '-' _)
    exact absurd rfl (digit_ne_dash hd)
  · rw [if_neg hi, if_neg hj] at h
    have := natDigits_inj h
    omega

/-- The four-character `YYYY` digit group of a year `0 ≤ y ≤ 9999`: the
decimal digits left-padded with `'0'` to width 4. -/
def pad4 (i : Int) : List Char :=
  List.replicate (4 - (jsIntDigits i).length) '0' ++ jsIntDigits i

theorem parseDigits_pad4 (i : Int) (h : 0 ≤ i) : parseDigits (pad4 i) = i := by
  rw [pad4, jsIntDigits_nonneg i h, parseDigits, parseNatDigits_replicate_zero,
    parseNatDigits_natDigits]
  omega

theorem pad4_chars (i : Int) (h : 0 ≤ i) :
    ∀ c ∈ pad4 i, 48 ≤ c.toNat ∧ c.toNat ≤ 57 := by
  intro c hc
  rw [pad4, jsIntDigits_nonneg i h] at hc
  rcases List.mem_append.mp hc with h1 | h1
  · rcases List.eq_of_mem_replicate h1 with rfl
    exact ⟨by decide, by decide⟩
  · exact natDigits_chars i.toNat c h1

theorem pad4_eq_jsIntDigits (i : Int) (h1 : 1000 ≤ i) (h2 : i ≤ 9999) :
    pad4 i = jsIntDigits i := by
  have hn : (natDigits i.toNat).length = 4 :=
    natDigits_length_4 i.toNat (by omega) (by omega)
  rw [pad4, jsIntDigits_nonneg i (by omega), hn]
  rfl

theorem timeFields (D hh mi : Int) (hh0 : 0 ≤ hh) (hh1 : hh < 24)
    (hmi0 : 0 ≤ mi) (hmi1 : mi < 60) :
    (D * msPerDay + hh * msPerHour + mi * msPerMin) / msPerDay = D ∧
    ((D * msPerDay + hh * msPerHour + mi * msPerMin) / msPerHour) % 24 = hh ∧
    ((D * msPerDay + hh * msPerHour + mi * msPerMin) / msPerMin) % 60 = mi := by
  unfold msPerDay msPerHour msPerMin
  omega

theorem daysInMonth_le_31 :
    ∀ (leap : Bool) (mn : Nat), mn < 12 → daysInMonth (mn : Int) leap ≤ 31 := by
  decide

theorem dayFields (y mn d : Int) (hmn0 : 0 ≤ mn) (hmn : mn < 12)
    (hd1 : 1 ≤ d) (hd2 : d ≤ daysInMonth mn (isLeap y)) :
    yearFromDay (dayFromYear y + monthStart mn (isLeap y) + (d - 1)) = y ∧
    monthOfDay (dayFromYear y + monthStart mn (isLeap y) + (d - 1)) = mn ∧
    domOfDay (dayFromYear y + monthStart mn (isLeap y) + (d - 1)) = d := by
  have hcast_mn : ((mn.toNat : Nat) : Int) = mn := Int.toNat_of_nonneg hmn0
  have hcast_d : ((d.toNat : Nat) : Int) = d := Int.toNat_of_nonneg (by omega)
  have hd31 : d ≤ 31 := by
    have := daysInMonth_le_31 (isLeap y) mn.toNat (by omega)
    rw [hcast_mn] at this
    omega
  have hf := month_table_fwd (isLeap y) mn.toNat (by omega) d.toNat (by omega)
    (by omega)
  rw [hcast_mn, hcast_d] at hf
  have hf2 := hf hd2
  obtain ⟨hmonth, hge0, hlt⟩ := hf2
  have hyear : yearFromDay (dayFromYear y + monthStart mn (isLeap y) + (d - 1)) = y := by
    apply yearFromDay_eq_of
    · linarith [hge0]
    · rw [dayFromYear_succ]
      linarith [hlt]
  refine ⟨hyear, ?_, ?_⟩
  · rw [monthOfDay, doyOfDay, hyear]
    have he : dayFromYear y + monthStart mn (isLeap y) + (d - 1) - dayFromYear y
        = monthStart mn (isLeap y) + d - 1 := by ring
    rw [he]
    exact hmonth
  · rw [domOfDay, monthOfDay, doyOfDay, hyear]
    have he : dayFromYear y + monthStart mn (isLeap y) + (d - 1) - dayFromYear y
        = monthStart mn (isLeap y) + d - 1 := by ring
    rw [he, hmonth]
    ring

/-- Model of `toIsoFromLocalDatetime` (dashboard page, lines 130-139):
split the `datetime-local` string on `"T"`, the date part on `"-"` and the
time part on `":"`, apply `Number` to each digit group, and return
`Date.UTC(y, m - 1, d, hh + 5, mi, 0, 0)` — the fixed Quito offset
`UTC = local + 5h`.  The instant is returned as its time value; the code's
`new Date(utcMs).toISOString()` denotes exactly that value.  Inputs not of
the minute-precision shape make the original code produce `NaN` or throw;
they are outside every claim and the missing groups default to `[]` here. -/
def toIsoFromLocalDatetime (value : String) : Int :=
  let parts := splitOnChar 'T' value.data
  let dparts := splitOnChar '-' (parts.getD 0 [])
  let tparts := splitOnChar ':' (parts.getD 1 [])
  jsDateUTC (parseDigits (dparts.getD 0 [])) (parseDigits (dparts.getD 1 []) - 1)
    (parseDigits (dparts.getD 2 [])) (parseDigits (tparts.getD 0 []) + 5)
    (parseDigits (tparts.getD 1 []))

/-- Model of `toLocalInputFromIso` (dashboard page, lines 143-154): shift
the instant by `-5h` (`Quito = UTC - 5`), read the UTC fields of the
shifted instant, and render `${yyyy}-${mm}-${dd}T${hh}:${mi}` with
`padStart(2, "0")` on every field except the year. -/
def toLocalInputFromIso (t : Int) : String :=
  String.mk (jsIntDigits (yearFromDay ((t - 5 * msPerHour) / msPerDay))
    ++ '-' :: pad2 (monthOfDay ((t - 5 * msPerHour) / msPerDay) + 1)
    ++ '-' :: pad2 (domOfDay ((t - 5 * msPerHour) / msPerDay))
    ++ 'T' :: pad2 (((t - 5 * msPerHour) / msPerHour) % 24)
    ++ ':' :: pad2 (((t - 5 * msPerHour) / msPerMin) % 60))

/-- Model of `ymdInQuito` (dashboard page, lines 54-66): the year, 2-digit
month and 2-digit day parts of the instant formatted by
`Intl.DateTimeFormat("en-CA", ...)` in the `America/Guayaquil` zone
(fixed UTC-5), joined as `YYYY-MM-DD`. -/
def ymdInQuito (t : Int) : String :=
  String.mk (jsIntDigits (yearFromDay ((t - 5 * msPerHour) / msPerDay))
    ++ '-' :: pad2 (monthOfDay ((t - 5 * msPerHour) / msPerDay) + 1)
    ++ '-' :: pad2 (domOfDay ((t - 5 * msPerHour) / msPerDay)))

/-- The wall-clock string `YYYY-MM-DDTHH:mm` with the given field values:
the canonical minute-precision `datetime-local` form. -/
def localInputForm (y m d hh mi : Int) : String :=
  String.mk (pad4 y ++ '-' :: pad2 m ++ '-' :: pad2 d
    ++ 'T' :: pad2 hh ++ ':' :: pad2 mi)

/-- Spec reading of "the UTC instant at year Y, month M (1-based), day D,
hour H, minute Min": the proleptic-Gregorian instant with hours and
minutes taken linearly.  This is the specification side of the refinement
claims; it is also used to name concrete instants such as
`2026-02-08T04:59:00Z`. -/
def utcInstantOfCivil (y m d hh mi : Int) : Int :=
  (dayFromYear y + monthStart (m - 1) (isLeap y) + (d - 1)) * msPerDay
    + hh * msPerHour + mi * msPerMin

theorem notMem_cons_of {c x : Char} {l : List Char} (h1 : c ≠ x)
    (h2 : c ∉ l) : c ∉ x :: l := by
  simp [h1, h2]

theorem notMem_append_of {c : Char} {l1 l2 : List Char} (h1 : c ∉ l1)
    (h2 : c ∉ l2) : c ∉ l1 ++ l2 := by
  simp [h1, h2]

theorem notMem_pad2_T (i : Int) (h : 0 ≤ i) : 'T' ∉ pad2 i :=
  fun hm => digit_ne_T (pad2_chars i h _ hm) rfl

theorem notMem_pad2_dash (i : Int) (h : 0 ≤ i) : '-' ∉ pad2 i :=
  fun hm => digit_ne_dash (pad2_chars i h _ hm) rfl

theorem notMem_pad2_colon (i : Int) (h : 0 ≤ i) : ':' ∉ pad2 i :=
  fun hm => digit_ne_colon (pad2_chars i h _ hm) rfl

theorem notMem_pad4_T (i : Int) (h : 0 ≤ i) : 'T' ∉ pad4 i :=
  fun hm => digit_ne_T (pad4_chars i h _ hm) rfl

theorem notMem_pad4_dash (i : Int) (h : 0 ≤ i) : '-' ∉ pad4 i :=
  fun hm => digit_ne_dash (pad4_chars i h _ hm) rfl

theorem toIso_localInputForm (y m d hh mi : Int) (hy : 0 ≤ y) (hm : 0 ≤ m)
    (hd : 0 ≤ d) (hhh : 0 ≤ hh) (hmi : 0 ≤ mi) :
    toIsoFromLocalDatetime (localInputForm y m d hh mi)
      = jsDateUTC y (m - 1) d (hh + 5) mi := by
  have hTdate : 'T' ∉ pad4 y ++ '-' :: (pad2 m ++ '-' :: pad2 d) :=
    notMem_append_of (notMem_pad4_T y hy) (notMem_cons_of (by decide)
      (notMem_append_of (notMem_pad2_T m hm)
        (notMem_cons_of (by decide) (notMem_pad2_T d hd))))
  have hTtime : 'T' ∉ pad2 hh ++ ':' :: pad2 mi :=
    notMem_append_of (notMem_pad2_T hh hhh)
      (notMem_cons_of (by decide) (notMem_pad2_T mi hmi))
  have hdata : (localInputForm y m d hh mi).data
      = (pad4 y ++ '-' :: (pad2 m ++ '-' :: pad2 d))
          ++ 'T' :: (pad2 hh ++ ':' :: pad2 mi) := by
    show pad4 y ++ '-' :: pad2 m ++ '-' :: pad2 d
        ++ 'T' :: pad2 hh ++ ':' :: pad2 mi = _
    simp [List.append_assoc]
  have hsplitT : splitOnChar 'T' (localInputForm y m d hh mi).data
      = [pad4 y ++ '-' :: (pad2 m ++ '-' :: pad2 d),
         pad2 hh ++ ':' :: pad2 mi] := by
    rw [hdata, splitOnChar_append _ hTdate, splitOnChar_not_mem hTtime]
  have hsplitD : splitOnChar '-' (pad4 y ++ '-' :: (pad2 m ++ '-' :: pad2 d))
      = [pad4 y, pad2 m, pad2 d] := by
    rw [splitOnChar_append _ (notMem_pad4_dash y hy),
      splitOnChar_append _ (notMem_pad2_dash m hm),
      splitOnChar_not_mem (notMem_pad2_dash d hd)]
  have hsplitC : splitOnChar ':' (pad2 hh ++ ':' :: pad2 mi)
      = [pad2 hh, pad2 mi] := by
    rw [splitOnChar_append _ (notMem_pad2_colon hh hhh),
      splitOnChar_not_mem (notMem_pad2_colon mi hmi)]
  rw [toIsoFromLocalDatetime]
  rw [hsplitT]
  simp only [List.getD_cons_zero, List.getD_cons_succ]
  rw [hsplitD, hsplitC]
  simp only [List.getD_cons_zero, List.getD_cons_succ]
  rw [parseDigits_pad4 y hy, parseDigits_pad2 m hm, parseDigits_pad2 d hd,
    parseDigits_pad2 hh hhh, parseDigits_pad2 mi hmi]

theorem jsDateUTC_valid (y m d hh mi : Int) (hy : ¬ (0 ≤ y ∧ y ≤ 99))
    (hm0 : 0 ≤ m) (hm : m < 12) :
    jsDateUTC y m d hh mi
      = (dayFromYear y + monthStart m (isLeap y) + (d - 1)) * msPerDay
          + hh * msPerHour + mi * msPerMin := by
  rw [jsDateUTC, jsFullYear, if_neg hy]
  have h1 : m / 12 = 0 := by omega
  have h2 : m % 12 = m := by omega
  rw [h1, h2]
  ring_nf

theorem pad2_length_2 (i : Int) (h0 : 0 ≤ i) (h99 : i ≤ 99) :
    (pad2 i).length = 2 := by
  have h2 := natDigits_length_lt_100 i.toNat (by omega)
  rw [pad2, jsIntDigits_nonneg i h0]
  by_cases hi : i.toNat < 10
  · rw [if_pos hi] at h2
    rw [if_pos (by rw [h2]; norm_num)]
    simp [h2]
  · rw [if_neg hi] at h2
    rw [if_neg (by rw [h2]; norm_num)]
    exact h2

theorem pad2_inj {i j : Int} (h0i : 0 ≤ i) (h0j : 0 ≤ j)
    (h : pad2 i = pad2 j) : i = j := by
  have := parseDigits_pad2 i h0i
  rw [h, parseDigits_pad2 j h0j] at this
  omega

theorem roundtrip_fields (y m d hh mi : Int) (hy100 : 100 ≤ y)
    (hm1 : 1 ≤ m) (hm2 : m ≤ 12) (hd1 : 1 ≤ d)
    (hd2 : d ≤ daysInMonth (m - 1) (isLeap y)) (hh0 : 0 ≤ hh) (hh1 : hh ≤ 23)
    (hmi0 : 0 ≤ mi) (hmi1 : mi ≤ 59) :
    toLocalInputFromIso (jsDateUTC y (m - 1) d (hh + 5) mi)
      = String.mk (jsIntDigits y ++ '-' :: pad2 m ++ '-' :: pad2 d
          ++ 'T' :: pad2 hh ++ ':' :: pad2 mi) := by
  have hUTC := jsDateUTC_valid y (m - 1) d (hh + 5) mi (by omega) (by omega)
    (by omega)
  have hq : jsDateUTC y (m - 1) d (hh + 5) mi - 5 * msPerHour
      = (dayFromYear y + monthStart (m - 1) (isLeap y) + (d - 1)) * msPerDay
          + hh * msPerHour + mi * msPerMin := by
    rw [hUTC]
    unfold msPerDay msPerHour msPerMin
    ring
  have htf := timeFields (dayFromYear y + monthStart (m - 1) (isLeap y) + (d - 1))
    hh mi hh0 (by omega) hmi0 (by omega)
  have hdf := dayFields y (m - 1) d (by omega) (by omega) hd1 hd2
  rw [toLocalInputFromIso, hq, htf.1, htf.2.1, htf.2.2, hdf.1, hdf.2.1, hdf.2.2]
  have hmm : m - 1 + 1 = m := by ring
  rw [hmm]

theorem dayRanges (z : Int) :
    0 ≤ monthOfDay z ∧ monthOfDay z < 12 ∧ 1 ≤ domOfDay z ∧ domOfDay z ≤ 31 := by
  have hs := yearFromDay_spec z
  have hdoy0 : 0 ≤ doyOfDay z := by
    rw [doyOfDay]
    linarith [hs.1]
  have hdoy1 : doyOfDay z < (if isLeap (yearFromDay z) then 366 else 365) := by
    have hsucc := dayFromYear_succ (yearFromDay z)
    rw [doyOfDay]
    linarith [hs.2]
  have hcast : ((doyOfDay z).toNat : Int) = doyOfDay z :=
    Int.toNat_of_nonneg hdoy0
  have hbound : (doyOfDay z).toNat < 366 := by
    by_cases hl : isLeap (yearFromDay z)
    · rw [if_pos hl] at hdoy1
      omega
    · rw [if_neg hl] at hdoy1
      omega
  have htab := month_table_inv (isLeap (yearFromDay z)) (doyOfDay z).toNat
    (by omega) (by rw [hcast]; exact hdoy1)
  rw [hcast] at htab
  obtain ⟨h1, h2, h3, h4, h5⟩ := htab
  have hmof : monthOfDay z = monthFromDoy (doyOfDay z) (isLeap (yearFromDay z)) := rfl
  have hdim := daysInMonth_le_31 (isLeap (yearFromDay z))
    (monthFromDoy (doyOfDay z) (isLeap (yearFromDay z))).toNat (by omega)
  rw [Int.toNat_of_nonneg h1] at hdim
  refine ⟨by rw [hmof]; exact h1, by rw [hmof]; exact h2, ?_, ?_⟩
  · rw [domOfDay, monthOfDay]
    exact h4
  · rw [domOfDay, monthOfDay]
    omega

theorem ymd_key_inj {y1 m1 d1 y2 m2 d2 : Int}
    (hm1a : 1 ≤ m1) (hm1b : m1 ≤ 12) (hd1a : 1 ≤ d1) (hd1b : d1 ≤ 31)
    (hm2a : 1 ≤ m2) (hm2b : m2 ≤ 12) (hd2a : 1 ≤ d2) (hd2b : d2 ≤ 31)
    (h : jsIntDigits y1 ++ '-' :: (pad2 m1 ++ '-' :: pad2 d1)
       = jsIntDigits y2 ++ '-' :: (pad2 m2 ++ '-' :: pad2 d2)) :
    y1 = y2 ∧ m1 = m2 ∧ d1 = d2 := by
  have hlen : ('-' :: (pad2 m1 ++ '-' :: pad2 d1)).length
      = ('-' :: (pad2 m2 ++ '-' :: pad2 d2)).length := by
    simp [pad2_length_2 m1 (by omega) (by omega),
      pad2_length_2 m2 (by omega) (by omega),
      pad2_length_2 d1 (by omega) (by omega),
      pad2_length_2 d2 (by omega) (by omega)]
  obtain ⟨hy, hrest⟩ := List.append_inj' h hlen
  have hy12 : y1 = y2 := jsIntDigits_inj hy
  have hrest2 : pad2 m1 ++ '-' :: pad2 d1 = pad2 m2 ++ '-' :: pad2 d2 :=
    (List.cons.inj hrest).2
  have hlen2 : ('-' :: pad2 d1).length = ('-' :: pad2 d2).length := by
    simp [pad2_length_2 d1 (by omega) (by omega),
      pad2_length_2 d2 (by omega) (by omega)]
  obtain ⟨hm, hd⟩ := List.append_inj' hrest2 hlen2
  exact ⟨hy12, pad2_inj (by omega) (by omega) hm,
    pad2_inj (by omega) (by omega) (List.cons.inj hd).2⟩

set_option maxRecDepth 100000 in
/-- C2 counterexample: the claim quantifies over every minute-precision
wall-clock string; at `"0999-01-01T00:00"` (year 999) the round trip
renders the year back without padding (`"999-01-01T00:00"`), so the
composition is not the identity. -/
theorem C2_roundtrip_cex :
    toLocalInputFromIso (toIsoFromLocalDatetime "0999-01-01T00:00")
      ≠ "0999-01-01T00:00" := by
  decide

/-- C2 (amended): for every valid wall-clock datetime with year 1000..9999
rendered in the minute-precision form `YYYY-MM-DDTHH:mm`,
`instantToLocalInput (localInputToInstant s) = s`.  The original claim
over every minute-precision string fails for years below 1000 (unpadded
year rendering, and `Date.UTC`'s two-digit-year rule) and for field
combinations that are not calendar datetimes (`Date.UTC` normalises
them). -/
theorem C2_roundtrip (y m d hh mi : Int) (hy1 : 1000 ≤ y) (hy2 : y ≤ 9999)
    (hm1 : 1 ≤ m) (hm2 : m ≤ 12) (hd1 : 1 ≤ d)
    (hd2 : d ≤ daysInMonth (m - 1) (isLeap y)) (hh0 : 0 ≤ hh) (hh1 : hh ≤ 23)
    (hmi0 : 0 ≤ mi) (hmi1 : mi ≤ 59) :
    toLocalInputFromIso (toIsoFromLocalDatetime (localInputForm y m d hh mi))
      = localInputForm y m d hh mi := by
  rw [toIso_localInputForm y m d hh mi (by omega) (by omega) (by omega) hh0 hmi0]
  rw [roundtrip_fields y m d hh mi (by omega) hm1 hm2 hd1 hd2 hh0 hh1 hmi0 hmi1]
  rw [localInputForm, pad4_eq_jsIntDigits y hy1 hy2]

/-- C2 witness: the round trip at the concrete datetime
`2026-02-08T16:00`. -/
theorem C2_roundtrip_witness :
    toLocalInputFromIso (toIsoFromLocalDatetime (localInputForm 2026 2 8 16 0))
      = localInputForm 2026 2 8 16 0 :=
  C2_roundtrip 2026 2 8 16 0 (by norm_num) (by norm_num) (by norm_num)
    (by norm_num) (by norm_num) (by decide) (by norm_num) (by norm_num)
    (by norm_num) (by norm_num)

set_option maxRecDepth 100000 in
/-- C3 counterexample: `Date.UTC` maps the year field 50 (string
`"0050"`) to 1950, so `localInputToInstant "0050-01-01T00:00"` is not the
UTC instant at year 50, hour 5. -/
theorem C3_fixed_offset_cex :
    toIsoFromLocalDatetime "0050-01-01T00:00" ≠ utcInstantOfCivil 50 1 1 5 0 := by
  decide

/-- C3 (amended): for every valid wall-clock datetime string
`YYYY-MM-DDTHH:mm` whose year field is at least 0100,
`localInputToInstant` returns exactly the UTC instant at year Y, month M,
day D, hour HH+5, minute mm — equivalently the instant of the local fields
plus five hours (`UTC = local + 5h`).  The function takes no time-zone
input, so the result cannot depend on the viewer's zone or any DST rule.
The original claim fails only for year fields 00..99, which `Date.UTC`
maps to 1900..1999. -/
theorem C3_fixed_offset (y m d hh mi : Int) (hy1 : 100 ≤ y) (hy2 : y ≤ 9999)
    (hm1 : 1 ≤ m) (hm2 : m ≤ 12) (hd1 : 1 ≤ d)
    (hd2 : d ≤ daysInMonth (m - 1) (isLeap y)) (hh0 : 0 ≤ hh) (hh1 : hh ≤ 23)
    (hmi0 : 0 ≤ mi) (hmi1 : mi ≤ 59) :
    toIsoFromLocalDatetime (localInputForm y m d hh mi)
      = utcInstantOfCivil y m d (hh + 5) mi ∧
    toIsoFromLocalDatetime (localInputForm y m d hh mi)
      = utcInstantOfCivil y m d hh mi + 5 * msPerHour := by
  have hmain : toIsoFromLocalDatetime (localInputForm y m d hh mi)
      = utcInstantOfCivil y m d (hh + 5) mi := by
    rw [toIso_localInputForm y m d hh mi (by omega) (by omega) (by omega) hh0 hmi0,
      jsDateUTC_valid y (m - 1) d (hh + 5) mi (by omega) (by omega) (by omega),
      utcInstantOfCivil]
  refine ⟨hmain, ?_⟩
  rw [hmain, utcInstantOfCivil, utcInstantOfCivil]
  ring

/-- C3 witness: the concrete datetime `2026-02-08T16:00` maps to the UTC
instant at 2026-02-08, hour 21. -/
theorem C3_fixed_offset_witness :
    toIsoFromLocalDatetime (localInputForm 2026 2 8 16 0)
      = utcInstantOfCivil 2026 2 8 21 0 :=
  (C3_fixed_offset 2026 2 8 16 0 (by norm_num) (by norm_num) (by norm_num)
    (by norm_num) (by norm_num) (by decide) (by norm_num) (by norm_num)
    (by norm_num) (by norm_num)).1

/-- Spec reading of "the instants fall on the same calendar day at UTC-5":
the proleptic-Gregorian (year, month, day) triple of an instant shifted by
-5 hours.  Two instants are on the same Quito calendar day iff their
triples agree. -/
def quitoCivilDay (t : Int) : Int × Int × Int :=
  (yearFromDay ((t - 5 * msPerHour) / msPerDay),
   monthOfDay ((t - 5 * msPerHour) / msPerDay) + 1,
   domOfDay ((t - 5 * msPerHour) / msPerDay))

set_option maxRecDepth 100000 in
/-- C4: `civilDateKey` (`ymdInQuito`) distinguishes instants exactly by
their calendar day at UTC-5: two instants get equal keys iff their
(year, month, day) triples at UTC-5 agree; and the two claimed instants
two minutes apart across Quito midnight get the keys `2026-02-07` and
`2026-02-08`. -/
theorem C4_civil_date_key :
    (∀ t t' : Int, ymdInQuito t = ymdInQuito t'
        ↔ quitoCivilDay t = quitoCivilDay t') ∧
    ymdInQuito (utcInstantOfCivil 2026 2 8 4 59) = "2026-02-07" ∧
    ymdInQuito (utcInstantOfCivil 2026 2 8 5 1) = "2026-02-08" := by
  refine ⟨fun t t' => ⟨fun h => ?_, fun h => ?_⟩, by decide, by decide⟩
  · have hdata := congrArg String.data h
    have hlist : jsIntDigits (yearFromDay ((t - 5 * msPerHour) / msPerDay))
        ++ '-' :: (pad2 (monthOfDay ((t - 5 * msPerHour) / msPerDay) + 1)
          ++ '-' :: pad2 (domOfDay ((t - 5 * msPerHour) / msPerDay)))
        = jsIntDigits (yearFromDay ((t' - 5 * msPerHour) / msPerDay))
        ++ '-' :: (pad2 (monthOfDay ((t' - 5 * msPerHour) / msPerDay) + 1)
          ++ '-' :: pad2 (domOfDay ((t' - 5 * msPerHour) / msPerDay))) := by
      have h1 := hdata
      rw [ymdInQuito, ymdInQuito] at h1
      simpa [List.append_assoc] using h1
    have hr := dayRanges ((t - 5 * msPerHour) / msPerDay)
    have hr' := dayRanges ((t' - 5 * msPerHour) / msPerDay)
    have hinj := ymd_key_inj (by omega) (by omega) (by omega) (by omega)
      (by omega) (by omega) (by omega) (by omega) hlist
    rw [quitoCivilDay, quitoCivilDay, Prod.mk.injEq, Prod.mk.injEq]
    exact ⟨hinj.1, by omega, hinj.2.2⟩
  · rw [quitoCivilDay, quitoCivilDay, Prod.mk.injEq, Prod.mk.injEq] at h
    rw [ymdInQuito, ymdInQuito, h.1, h.2.2]
    have hm : monthOfDay ((t - 5 * msPerHour) / msPerDay)
        = monthOfDay ((t' - 5 * msPerHour) / msPerDay) := by omega
    rw [hm]

/-- Model of `buildDefaultLocalDatetime`'s `d.setHours(19, 0, 0, 0)`
step: with a viewer clock at fixed offset `tzOffMin` minutes east of UTC,
replace the local hour/minute/second/millisecond of the instant by
`h:00:00.000` on the same local day, returning the new instant
(ECMAScript `LocalTime(t) = t + offset`, `UTC(t) = t - offset`). -/
def jsSetHoursLocal (tzOffMin t h : Int) : Int :=
  ((t + tzOffMin * msPerMin) / msPerDay) * msPerDay + h * msPerHour
    - tzOffMin * msPerMin

/-- Model of `buildDefaultLocalDatetime` (dashboard page, lines 182-191):
set the local time of the given day's instant to 19:00, then render the
viewer-local `getFullYear`/`getMonth`/`getDate`/`getHours`/`getMinutes`
fields as `${yyyy}-${mm}-${dd}T${hh}:${mi}` with 2-width padding.  The
viewer clock is modelled as a fixed offset of `tzOffMin` minutes. -/
def buildDefaultLocalDatetime (tzOffMin day : Int) : String :=
  String.mk
    (jsIntDigits (yearFromDay
        ((jsSetHoursLocal tzOffMin day 19 + tzOffMin * msPerMin) / msPerDay))
    ++ '-' :: pad2 (monthOfDay
        ((jsSetHoursLocal tzOffMin day 19 + tzOffMin * msPerMin) / msPerDay) + 1)
    ++ '-' :: pad2 (domOfDay
        ((jsSetHoursLocal tzOffMin day 19 + tzOffMin * msPerMin) / msPerDay))
    ++ 'T' :: pad2 (((jsSetHoursLocal tzOffMin day 19 + tzOffMin * msPerMin)
        / msPerHour) % 24)
    ++ ':' :: pad2 (((jsSetHoursLocal tzOffMin day 19 + tzOffMin * msPerMin)
        / msPerMin) % 60))

/-- Spec reading of "the wall-clock string for 19:00 on day `d` evaluated
in the viewer's own local clock": the viewer-local calendar date of the
instant, with the time fixed at 19:00. -/
def viewerDefault19 (tzOffMin day : Int) : String :=
  String.mk (jsIntDigits (yearFromDay ((day + tzOffMin * msPerMin) / msPerDay))
    ++ '-' :: pad2 (monthOfDay ((day + tzOffMin * msPerMin) / msPerDay) + 1)
    ++ '-' :: pad2 (domOfDay ((day + tzOffMin * msPerMin) / msPerDay))
    ++ 'T' :: pad2 19 ++ ':' :: pad2 0)

/-- The same default rendered in the fixed Quito offset (UTC-5 is -300
minutes), the convention every other mapper function uses. -/
def quitoDefault19 (day : Int) : String := viewerDefault19 (-300) day

set_option maxRecDepth 100000 in
/-- C9: `defaultEventTime` (`buildDefaultLocalDatetime`) renders 19:00 on
the given day in the viewer's own local clock (here a viewer at fixed
offset `tzOffMin`), and this differs from the fixed Quito rendering used
by every other mapper: a viewer on UTC sees `2026-02-08` where the Quito
convention says `2026-02-07`. -/
theorem C9_default_viewer_clock :
    (∀ tzOffMin day : Int, buildDefaultLocalDatetime tzOffMin day
        = viewerDefault19 tzOffMin day) ∧
    buildDefaultLocalDatetime 0 (utcInstantOfCivil 2026 2 8 3 0)
      ≠ quitoDefault19 (utcInstantOfCivil 2026 2 8 3 0) := by
  constructor
  · intro off day
    have hlms : jsSetHoursLocal off day 19 + off * msPerMin
        = ((day + off * msPerMin) / msPerDay) * msPerDay + 19 * msPerHour := by
      rw [jsSetHoursLocal]
      ring
    have h1 : (((day + off * msPerMin) / msPerDay) * msPerDay + 19 * msPerHour)
        / msPerDay = (day + off * msPerMin) / msPerDay := by
      unfold msPerDay msPerHour
      omega
    have h2 : ((((day + off * msPerMin) / msPerDay) * msPerDay + 19 * msPerHour)
        / msPerHour) % 24 = 19 := by
      unfold msPerDay msPerHour
      omega
    have h3 : ((((day + off * msPerMin) / msPerDay) * msPerDay + 19 * msPerHour)
        / msPerMin) % 60 = 0 := by
      unfold msPerDay msPerHour msPerMin
      omega
    rw [buildDefaultLocalDatetime, viewerDefault19, hlms, h1, h2, h3]
  · decide

/-- Event status: `"planned" | "done"` of the `events` table. -/
inductive EvStatus
  | planned
  | done
deriving DecidableEq

/-- An `events` row (the `EventRow` type of the dashboard page); instants
are time values, `NULL`able columns are `Option`s. -/
structure EventRow where
  id : String
  title : String
  location : Option String
  link : Option String
  cover_url : Option String
  status : EvStatus
  created_at : Int
  created_by : String
  date_start : Option Int
  date_end : Option Int
deriving DecidableEq

/-- A `photos` row. -/
structure PhotoRow where
  id : String
  event_id : String
  user_id : String
  photo_url : String
  created_at : Int
deriving DecidableEq

/-- A `videos` row. -/
structure VideoRow where
  id : String
  event_id : String
  user_id : String
  video_url : String
  created_at : Int
deriving DecidableEq

/-- A `reviews` row. -/
structure ReviewRow where
  id : String
  event_id : String
  user_id : String
  rating : Option Int
  review_text : Option String
  created_at : Int
deriving DecidableEq

/-- The relational store's table contents. -/
structure Db where
  events : List EventRow
  reviews : List ReviewRow
  photos : List PhotoRow
  videos : List VideoRow
deriving DecidableEq

/-- `supabase.from("reviews").select("*").eq("event_id", eid)`. -/
def reviewsByEvent (db : Db) (eid : String) : List ReviewRow :=
  db.reviews.filter (fun r => r.event_id == eid)

/-- `supabase.from("photos").select("*").eq("event_id", eid)`. -/
def photosByEvent (db : Db) (eid : String) : List PhotoRow :=
  db.photos.filter (fun p => p.event_id == eid)

/-- `supabase.from("videos").select("*").eq("event_id", eid)`. -/
def videosByEvent (db : Db) (eid : String) : List VideoRow :=
  db.videos.filter (fun v => v.event_id == eid)

/-- Row effect of `deleteEventCompletely` (dashboard page, lines 408-433)
after the user confirms: delete the `reviews` rows and `photos` rows with
the event's id, then the `events` row itself.  The storage `remove` calls
that follow touch no table; no statement against the `videos` table
occurs anywhere in the function. -/
def deleteEventCompletely (ev : EventRow) (db : Db) : Db :=
  { db with
    reviews := db.reviews.filter (fun r => !(r.event_id == ev.id))
    photos := db.photos.filter (fun p => !(p.event_id == ev.id))
    events := db.events.filter (fun e => !(e.id == ev.id)) }

theorem filter_not_filter {α : Type} (p : α → Bool) (l : List α) :
    (l.filter (fun a => !(p a))).filter p = [] := by
  induction l with
  | nil => rfl
  | cons x xs ih =>
    cases h : p x <;> simp [List.filter_cons, h, ih]

/-- A store with one event `e1` carrying one video row. -/
def c1Event : EventRow :=
  { id := "e1", title := "cine", location := none, link := none,
    cover_url := none, status := EvStatus.done, created_at := 0,
    created_by := "u1", date_start := none, date_end := none }

/-- The video row attached to `e1`. -/
def c1Video : VideoRow :=
  { id := "v1", event_id := "e1", user_id := "u1", video_url := "vurl",
    created_at := 0 }

/-- The concrete store for the C1 counterexample. -/
def c1Db : Db :=
  { events := [c1Event], reviews := [], photos := [], videos := [c1Video] }

/-- C1 counterexample: after `deleteEventCompletely` on event `e1`, the
lookup of `videos` rows by `event_id = "e1"` is not empty — the function
issues no delete against the `videos` table, so the claimed cascade over
Video rows fails. -/
theorem C1_cascade_delete_cex :
    videosByEvent (deleteEventCompletely c1Event c1Db) "e1" ≠ [] := by
  decide

/-- C1 (amended): `deleteEventCompletely` removes every Review row and
every Photo row whose `event_id` equals the Event's id — subsequent
lookups by that `event_id` return empty sets — but it does not touch the
`videos` table: the Video rows with that `event_id` survive unchanged. -/
theorem C1_cascade_delete (db : Db) (ev : EventRow) :
    reviewsByEvent (deleteEventCompletely ev db) ev.id = [] ∧
    photosByEvent (deleteEventCompletely ev db) ev.id = [] ∧
    videosByEvent (deleteEventCompletely ev db) ev.id = videosByEvent db ev.id := by
  refine ⟨?_, ?_, rfl⟩
  · exact filter_not_filter (fun r => r.event_id == ev.id) db.reviews
  · exact filter_not_filter (fun p => p.event_id == ev.id) db.photos

/-- `toggleDone`'s `status === "planned" ? "done" : "planned"` (dashboard
page, lines 313-318) as a function on the status. -/
def toggleStatus : EvStatus → EvStatus
  | EvStatus.planned => EvStatus.done
  | EvStatus.done => EvStatus.planned

/-- Effect of the `update({ status: next }).eq("id", id)` row update on a
single row. -/
def toggleOne (id : String) (e : EventRow) : EventRow :=
  if e.id == id then { e with status := toggleStatus e.status } else e

/-- Row effect of `toggleDone` on the `events` table: flip the status of
the rows whose `id` matches. -/
def toggleDone (id : String) (events : List EventRow) : List EventRow :=
  events.map (toggleOne id)

theorem toggleOne_inv (id : String) (e : EventRow) :
    toggleOne id (toggleOne id e) = e := by
  have hts : toggleStatus (toggleStatus e.status) = e.status := by
    cases e.status <;> rfl
  by_cases h : e.id == id
  · simp [toggleOne, h, hts]
  · simp [toggleOne, h]

/-- C5: `toggleStatus` sends planned to done and done to planned, applying
it twice is the identity on statuses, and the row-level `toggleDone`
applied twice returns the events table to its original state. -/
theorem C5_toggle_involution :
    toggleStatus EvStatus.planned = EvStatus.done ∧
    toggleStatus EvStatus.done = EvStatus.planned ∧
    (∀ s, toggleStatus (toggleStatus s) = s) ∧
    (∀ (id : String) (events : List EventRow),
      toggleDone id (toggleDone id events) = events) := by
  refine ⟨rfl, rfl, fun s => by cases s <;> rfl, fun id events => ?_⟩
  rw [toggleDone, toggleDone, List.map_map]
  have : ∀ e ∈ events, (toggleOne id ∘ toggleOne id) e = e := by
    intro e _
    exact toggleOne_inv id e
  rw [List.map_congr_left this]
  simp

/-- The sort key of the calendar view's comparator
`(a, b) => da - db` with `da = new Date(a.date_start).getTime()` and `0`
for a missing date. -/
def eventKeyMs (e : EventRow) : Int :=
  match e.date_start with
  | some t => t
  | none => 0

/-- `eventsWithDate` (dashboard page, line 235): the events whose
`date_start` is set (`!!e.date_start`). -/
def eventsWithDate (events : List EventRow) : List EventRow :=
  events.filter (fun e => e.date_start.isSome)

/-- `eventsNoDate` (dashboard page, line 236): the events with no
`date_start`. -/
def eventsNoDate (events : List EventRow) : List EventRow :=
  events.filter (fun e => !e.date_start.isSome)

/-- The filter of `eventsForSelectedDay` (dashboard page, lines 249-253):
no `date_start` excludes the event, otherwise compare the Quito
`YYYY-MM-DD` keys of the event instant and the selected day. -/
def matchesDay (selectedDay : Int) (e : EventRow) : Bool :=
  match e.date_start with
  | none => false
  | some t => ymdInQuito t == ymdInQuito selectedDay

/-- `eventsForSelectedDay` (dashboard page, lines 245-259): filter
`eventsWithDate` by equal Quito day key, then sort ascending on the
`date_start` time value (`Array.prototype.sort` is stable; the stable
ascending order is modelled by `List.mergeSort`). -/
def eventsForSelectedDay (events : List EventRow) (selectedDay : Int) :
    List EventRow :=
  ((eventsWithDate events).filter (matchesDay selectedDay)).mergeSort
    (fun a b => decide (eventKeyMs a ≤ eventKeyMs b))

theorem matchesDay_filter (events : List EventRow) (day : Int) :
    (eventsWithDate events).filter (matchesDay day)
      = events.filter (matchesDay day) := by
  rw [eventsWithDate, List.filter_filter]
  apply List.filter_congr
  intro e _
  cases h : e.date_start <;> simp [matchesDay, h]

/-- C7: the "events on a selected day" view contains exactly (as a
permutation, hence with multiplicity) the events whose `date_start` is
present with Quito civil-date key equal to the selected day's, it is
sorted ascending by the `date_start` instant, dateless events never
appear in it, and `eventsNoDate` lists exactly the events with no
`date_start`. -/
theorem C7_selected_day_view (events : List EventRow) (day : Int) :
    (eventsForSelectedDay events day).Perm (events.filter (matchesDay day)) ∧
    (∀ e, e ∈ eventsForSelectedDay events day ↔
      e ∈ events ∧ ∃ t, e.date_start = some t ∧ ymdInQuito t = ymdInQuito day) ∧
    List.Pairwise (fun a b => eventKeyMs a ≤ eventKeyMs b)
      (eventsForSelectedDay events day) ∧
    (∀ e ∈ eventsForSelectedDay events day, e.date_start ≠ none) ∧
    (∀ e, e ∈ eventsNoDate events ↔ e ∈ events ∧ e.date_start = none) := by
  have hperm : (eventsForSelectedDay events day).Perm
      (events.filter (matchesDay day)) := by
    rw [eventsForSelectedDay, matchesDay_filter]
    exact List.mergeSort_perm _ _
  have hmem : ∀ e, e ∈ eventsForSelectedDay events day ↔
      e ∈ events ∧ ∃ t, e.date_start = some t ∧ ymdInQuito t = ymdInQuito day := by
    intro e
    rw [hperm.mem_iff, List.mem_filter]
    constructor
    · rintro ⟨he, hm⟩
      refine ⟨he, ?_⟩
      cases h : e.date_start with
      | none => rw [matchesDay, h] at hm; exact absurd hm (by simp)
      | some t =>
        rw [matchesDay, h] at hm
        exact ⟨t, rfl, beq_iff_eq.mp hm⟩
    · rintro ⟨he, t, ht, hk⟩
      exact ⟨he, by rw [matchesDay, ht]; exact beq_iff_eq.mpr hk⟩
  refine ⟨hperm, hmem, ?_, ?_, ?_⟩
  · have hs := @List.sorted_mergeSort EventRow
      (fun a b => decide (eventKeyMs a ≤ eventKeyMs b))
      (fun a b c hab hbc =>
        decide_eq_true (le_trans (of_decide_eq_true hab) (of_decide_eq_true hbc)))
      (fun a b => by
        rcases Int.le_total (eventKeyMs a) (eventKeyMs b) with h | h <;>
          simp [h])
      ((eventsWithDate events).filter (matchesDay day))
    exact hs.imp (fun h => of_decide_eq_true h)
  · intro e he
    rcases (hmem e).mp he with ⟨_, t, ht, _⟩
    rw [ht]
    simp
  · intro e
    rw [eventsNoDate, List.mem_filter]
    cases h : e.date_start <;> simp [h]

/-- JavaScript `String.prototype.trim` on the common whitespace
characters (space, tab, newline, carriage return; the full set also has
other Unicode space code points, which no claim exercises). -/
def isJsSpace (c : Char) : Bool :=
  c == ' ' || c == '\t' || c == '\n' || c == '\r'

/-- Model of `s.trim()`. -/
def jsTrim (s : String) : String :=
  String.mk (((s.data.dropWhile isJsSpace).reverse.dropWhile isJsSpace).reverse)

/-- The upsert payload of `saveReview` (dashboard page, lines 348-374):
`event_id`, `user_id`, `rating`, and `review_text: reviewText.trim() || null`. -/
structure ReviewUpsert where
  event_id : String
  user_id : String
  rating : Int
  review_text : Option String
deriving DecidableEq

/-- The conflict target `(event_id, user_id)` of the upsert. -/
def sameReviewKey (e u : String) (x : ReviewUpsert) : Bool :=
  x.event_id == e && x.user_id == u

/-- The relational store's `upsert(row, { onConflict: "event_id,user_id" })`:
when a row with the same `(event_id, user_id)` exists, it is overwritten in
place; otherwise the new row is appended. -/
def upsertReview (r : ReviewUpsert) (rows : List ReviewUpsert) :
    List ReviewUpsert :=
  if rows.any (sameReviewKey r.event_id r.user_id) then
    rows.map (fun x => if sameReviewKey r.event_id r.user_id x then r else x)
  else rows ++ [r]

/-- `reviewText.trim() || null`: the empty string is falsy and becomes
`NULL`. -/
def reviewTextOrNull (s : String) : Option String :=
  if (jsTrim s).data.isEmpty then none else some (jsTrim s)

/-- `saveReview` for a signed-in user: upsert the payload with conflict
target `(event_id, user_id)`. -/
def saveReview (eventId uid : String) (rating : Int) (reviewText : String)
    (rows : List ReviewUpsert) : List ReviewUpsert :=
  upsertReview { event_id := eventId, user_id := uid, rating := rating,
                 review_text := reviewTextOrNull reviewText } rows

/-- The rows of a given `(event_id, user_id)` key. -/
def keyRows (e u : String) (rows : List ReviewUpsert) : List ReviewUpsert :=
  rows.filter (sameReviewKey e u)

/-- The table satisfies the `(event_id, user_id)` uniqueness rule. -/
def uniqueKeys (rows : List ReviewUpsert) : Prop :=
  ∀ e u, (keyRows e u rows).length ≤ 1

theorem sameReviewKey_of_matching {r x : ReviewUpsert}
    (h : sameReviewKey r.event_id r.user_id x = true) (e u : String) :
    sameReviewKey e u x = sameReviewKey e u r := by
  rw [sameReviewKey] at h
  rcases Bool.and_eq_true .. |>.mp h with ⟨h1, h2⟩
  rw [sameReviewKey, sameReviewKey, beq_iff_eq.mp h1, beq_iff_eq.mp h2]

theorem upsertReview_spec (r : ReviewUpsert) (rows : List ReviewUpsert)
    (h : uniqueKeys rows) :
    keyRows r.event_id r.user_id (upsertReview r rows) = [r] ∧
    uniqueKeys (upsertReview r rows) := by
  by_cases hany : rows.any (sameReviewKey r.event_id r.user_id)
  · have hmap : ∀ e u, keyRows e u (upsertReview r rows)
        = (keyRows e u rows).map
            (fun x => if sameReviewKey r.event_id r.user_id x then r else x) := by
      intro e u
      rw [upsertReview, if_pos hany, keyRows, List.filter_map, keyRows]
      congr 1
      apply List.filter_congr
      intro x _
      show sameReviewKey e u (if sameReviewKey r.event_id r.user_id x then r else x)
        = sameReviewKey e u x
      by_cases hx : sameReviewKey r.event_id r.user_id x
      · rw [if_pos hx, sameReviewKey_of_matching hx]
      · rw [if_neg hx]
    have hlen : ∀ e u, (keyRows e u (upsertReview r rows)).length
        = (keyRows e u rows).length := by
      intro e u
      rw [hmap e u, List.length_map]
    have hone : keyRows r.event_id r.user_id rows ≠ [] := by
      rcases List.any_eq_true.mp hany with ⟨x, hx, hkey⟩
      intro hnil
      have : x ∈ keyRows r.event_id r.user_id rows :=
        List.mem_filter.mpr ⟨hx, hkey⟩
      rw [hnil] at this
      exact absurd this (List.not_mem_nil x)
    have hexact : ∃ x, keyRows r.event_id r.user_id rows = [x]
        ∧ sameReviewKey r.event_id r.user_id x = true := by
      have hle := h r.event_id r.user_id
      match hk : keyRows r.event_id r.user_id rows with
      | [] => exact absurd hk hone
      | [x] =>
        refine ⟨x, rfl, ?_⟩
        have : x ∈ keyRows r.event_id r.user_id rows := by
          rw [hk]
          exact List.mem_singleton_self x
        exact (List.mem_filter.mp this).2
      | x :: y :: xs =>
        rw [hk] at hle
        simp at hle
    constructor
    · rcases hexact with ⟨x, hx, hxkey⟩
      rw [hmap, hx, List.map_singleton, if_pos hxkey]
    · intro e u
      rw [hlen e u]
      exact h e u
  · have hnone : keyRows r.event_id r.user_id rows = [] := by
      rw [keyRows, List.filter_eq_nil]
      intro x hx hkey
      exact hany (List.any_eq_true.mpr ⟨x, hx, hkey⟩)
    have hself : sameReviewKey r.event_id r.user_id r = true := by
      rw [sameReviewKey]
      simp
    constructor
    · rw [upsertReview, if_neg hany, keyRows, List.filter_append]
      rw [keyRows] at hnone
      rw [hnone, List.nil_append, List.filter_cons, if_pos (by exact hself)]
      rfl
    · intro e u
      rw [upsertReview, if_neg hany, keyRows, List.filter_append]
      by_cases hr : sameReviewKey e u r
      · have he : e = r.event_id ∧ u = r.user_id := by
          rw [sameReviewKey] at hr
          rcases Bool.and_eq_true .. |>.mp hr with ⟨h1, h2⟩
          exact ⟨(beq_iff_eq.mp h1).symm, (beq_iff_eq.mp h2).symm⟩
        rcases he with ⟨rfl, rfl⟩
        rw [keyRows] at hnone
        rw [hnone, List.nil_append, List.filter_cons, if_pos (by exact hr)]
        simp
      · rw [List.filter_cons, if_neg (by simp [hr]), List.filter_nil,
          List.append_nil]
        exact h e u

theorem foldl_saves_unique (eventId uid : String) :
    ∀ (saves : List (Int × String)) (rows : List ReviewUpsert),
      uniqueKeys rows →
      uniqueKeys (saves.foldl
        (fun acc rt => saveReview eventId uid rt.1 rt.2 acc) rows) := by
  intro saves
  induction saves with
  | nil => intro rows h; exact h
  | cons s ss ih =>
    intro rows h
    rw [List.foldl_cons]
    exact ih _ (upsertReview_spec _ rows h).2

/-- C8: starting from any table satisfying the `(event_id, user_id)`
uniqueness rule, after any sequence of `saveReview` calls by the same
user for the same event — the last one with rating `rLast` and text
`tLast` — the rows for that `(event_id, user_id)` pair are exactly the
one row with the payload of the last save, and the uniqueness rule still
holds for every key. -/
theorem C8_review_upsert (rows : List ReviewUpsert) (h : uniqueKeys rows)
    (eventId uid : String) (saves : List (Int × String)) (rLast : Int)
    (tLast : String) :
    keyRows eventId uid
        ((saves ++ [(rLast, tLast)]).foldl
          (fun acc rt => saveReview eventId uid rt.1 rt.2 acc) rows)
      = [{ event_id := eventId, user_id := uid, rating := rLast,
           review_text := reviewTextOrNull tLast }] ∧
    uniqueKeys ((saves ++ [(rLast, tLast)]).foldl
      (fun acc rt => saveReview eventId uid rt.1 rt.2 acc) rows) := by
  rw [List.foldl_append, List.foldl_cons, List.foldl_nil]
  have hu := foldl_saves_unique eventId uid saves rows h
  have hspec := upsertReview_spec
    { event_id := eventId, user_id := uid, rating := rLast,
      review_text := reviewTextOrNull tLast }
    (saves.foldl (fun acc rt => saveReview eventId uid rt.1 rt.2 acc) rows) hu
  exact ⟨hspec.1, hspec.2⟩

/-- C8 witness: one save into an empty table leaves exactly that user's
row for the event. -/
theorem C8_review_upsert_witness :
    keyRows "e1" "u1"
        ((([] : List (Int × String)) ++ [((5 : Int), "lindo")]).foldl
          (fun (acc : List ReviewUpsert) (rt : Int × String) =>
            saveReview "e1" "u1" rt.1 rt.2 acc) [])
      = [{ event_id := "e1", user_id := "u1", rating := 5,
           review_text := reviewTextOrNull "lindo" }] :=
  (C8_review_upsert [] (fun e u => Nat.zero_le 1) "e1" "u1" [] 5 "lindo").1

/-- A selected browser file: `name`, MIME `type` (called `mime` here) and
`size` in bytes. -/
structure JsFile where
  name : String
  mime : String
  size : Nat
deriving DecidableEq

/-- The new-event form state: `title`, `location`, `link`, `cover`. -/
structure NewEventForm where
  title : String
  location : String
  link : String
  cover : Option JsFile
deriving DecidableEq

/-- ASCII letter test. -/
def isAsciiAlphaChar (c : Char) : Bool :=
  ('a' ≤ c && c ≤ 'z') || ('A' ≤ c && c ≤ 'Z')

/-- ASCII lower-casing. -/
def asciiLower (c : Char) : Char :=
  if 'A' ≤ c ∧ c ≤ 'Z' then Char.ofNat (c.toNat + 32) else c

/-- The scheme characters before the first `':'` (lower-cased), or `none`
when no well-formed scheme terminated by `':'` is present. -/
def schemeTail : List Char → Option (List Char)
  | [] => none
  | c :: cs =>
    if c = ':' then some []
    else if isAsciiAlphaChar c || c.isDigit || c = '+' || c = '-' || c = '.' then
      (schemeTail cs).map (fun l => asciiLower c :: l)
    else none

/-- The `protocol` of `new URL(u)`: the lower-cased scheme followed by
`':'`.  This abstracts the WHATWG URL parser to its scheme part — the
full parser also validates host and path, but `isValidUrlMaybe`'s verdict
on the claims' inputs depends only on the scheme. -/
def urlProtocol (u : String) : Option String :=
  match u.data with
  | [] => none
  | c :: cs =>
    if isAsciiAlphaChar c then
      (schemeTail (c :: cs)).map (fun l => String.mk (l ++ [':']))
    else none

/-- Model of `isValidUrlMaybe` (new page, lines 25-33): `new URL(u)` must
succeed and its protocol must be `http:` or `https:`. -/
def isValidUrlMaybe (u : String) : Bool :=
  match urlProtocol u with
  | some p => p == "http:" || p == "https:"
  | none => false

/-- `titleOk`: `title.trim().length > 0` (new page, line 50). -/
def titleOkOf (form : NewEventForm) : Bool := !(jsTrim form.title).data.isEmpty

/-- `locOk`: `location.trim().length > 0` (new page, line 51). -/
def locOkOf (form : NewEventForm) : Bool := !(jsTrim form.location).data.isEmpty

/-- `linkOk`: non-empty trimmed link that is a valid http(s) URL (new
page, line 52). -/
def linkOkOf (form : NewEventForm) : Bool :=
  !(jsTrim form.link).data.isEmpty && isValidUrlMaybe (jsTrim form.link)

/-- `coverOk`: a cover file is selected (new page, line 53). -/
def coverOkOf (form : NewEventForm) : Bool := form.cover.isSome

/-- `canSave` (new page, line 55): all four checks pass. -/
def newFormChecksOk (form : NewEventForm) : Bool :=
  titleOkOf form && locOkOf form && linkOkOf form && coverOkOf form

/-- The object passed to `supabase.from("events").insert({...})` by
`createEvent` (new page, lines 89-96): trimmed title/location/link, the
uploaded cover's public URL, status `"planned"`, and the session user. -/
structure EventInsert where
  title : String
  location : String
  link : String
  cover_url : String
  status : EvStatus
  created_by : String
deriving DecidableEq

/-- The `events` row resulting from the insert: the insert object carries
no `date_start`/`date_end` keys, so those columns take their `NULL`
default (`id`/`created_at` are store-generated). -/
def EventInsert.asRow (r : EventInsert) (id : String) (created_at : Int) :
    EventRow :=
  { id := id, title := r.title, location := some r.location,
    link := some r.link, cover_url := some r.cover_url, status := r.status,
    created_at := created_at, created_by := r.created_by,
    date_start := none, date_end := none }

/-- A network call `createEvent` can issue: the cover upload to the
`covers` bucket, or the `events` insert. -/
inductive NetOp
  | storageUpload (bucket : String) (file : JsFile)
  | insertEvent (row : EventInsert)
deriving DecidableEq

/-- What the user sees when `createEvent` returns. -/
inductive CreateOutcome
  | inlineMsg (msg : String)
  | redirectLogin
  | success
deriving DecidableEq

/-- Model of `createEvent` (new page, lines 66-106): validate first (no
network call on failure), then require a session, then upload the cover
(abort with an inline message on error), then insert the event row with
status `"planned"` and no date.  `session`, `uploadResult` and
`insertError` are the collaborators' replies; the returned list records
the upload/insert calls issued, in order.  The inner `cover = none`
branch is unreachable (`coverOk` holds there). -/
def createEvent (form : NewEventForm) (session : Option String)
    (uploadResult : Except String String) (insertError : Option String) :
    List NetOp × CreateOutcome :=
  if !(newFormChecksOk form) then
    ([], CreateOutcome.inlineMsg
      "Completa todo correctamente (incluye un link válido y una portada).")
  else
    match session with
    | none => ([], CreateOutcome.redirectLogin)
    | some uid =>
      match form.cover with
      | none => ([], CreateOutcome.redirectLogin)
      | some coverFile =>
        match uploadResult with
        | Except.error e =>
          ([NetOp.storageUpload "covers" coverFile],
           CreateOutcome.inlineMsg ("No se pudo subir la portada: " ++ e))
        | Except.ok coverUrl =>
          match insertError with
          | some e =>
            ([NetOp.storageUpload "covers" coverFile,
              NetOp.insertEvent
                { title := jsTrim form.title, location := jsTrim form.location,
                  link := jsTrim form.link, cover_url := coverUrl,
                  status := EvStatus.planned, created_by := uid }],
             CreateOutcome.inlineMsg e)
          | none =>
            ([NetOp.storageUpload "covers" coverFile,
              NetOp.insertEvent
                { title := jsTrim form.title, location := jsTrim form.location,
                  link := jsTrim form.link, cover_url := coverUrl,
                  status := EvStatus.planned, created_by := uid }],
             CreateOutcome.success)

/-- C6: when any of the four validation checks fails, `createEvent`
issues no upload and no insert and shows the inline message; and whenever
an event insert is issued (on any collaborator replies), the inserted row
has status `planned` and its persisted row has no `date_start`. -/
theorem C6_create_event :
    ∀ (form : NewEventForm) (session : Option String)
      (up : Except String String) (ins : Option String),
      (newFormChecksOk form = false →
        (createEvent form session up ins).1 = [] ∧
        (createEvent form session up ins).2 = CreateOutcome.inlineMsg
          "Completa todo correctamente (incluye un link válido y una portada).") ∧
      (∀ r, NetOp.insertEvent r ∈ (createEvent form session up ins).1 →
        r.status = EvStatus.planned ∧
        ∀ id t, (r.asRow id t).date_start = none) := by
  intro form session up ins
  constructor
  · intro hfalse
    rw [createEvent.eq_def, hfalse]
    exact ⟨rfl, rfl⟩
  · intro r hr
    by_cases hok : newFormChecksOk form
    · rcases session with _ | uid
      · rw [createEvent.eq_def, hok] at hr
        simp at hr
      · rcases hcov : form.cover with _ | coverFile
        · rw [createEvent.eq_def, hok, hcov] at hr
          simp at hr
        · rcases up with e | url
          · rw [createEvent.eq_def, hok, hcov] at hr
            simp at hr
          · rcases ins with _ | e
            · rw [createEvent.eq_def, hok, hcov] at hr
              simp at hr
              rw [hr]
              exact ⟨rfl, fun id t => rfl⟩
            · rw [createEvent.eq_def, hok, hcov] at hr
              simp at hr
              rw [hr]
              exact ⟨rfl, fun id t => rfl⟩
    · have hfalse : newFormChecksOk form = false := by
        revert hok
        cases newFormChecksOk form <;> simp
      rw [createEvent.eq_def, hfalse] at hr
      simp at hr

/-- The concrete invalid form of the C6 witness: empty title. -/
def c6BadForm : NewEventForm :=
  { title := "", location := "Quito", link := "https://maps.example",
    cover := none }

/-- C6 witness: on the invalid form, no network call and the inline
message. -/
theorem C6_create_event_witness :
    (createEvent c6BadForm (some "u1") (Except.ok "url") none).1 = [] ∧
    (createEvent c6BadForm (some "u1") (Except.ok "url") none).2
      = CreateOutcome.inlineMsg
        "Completa todo correctamente (incluye un link válido y una portada)." :=
  (C6_create_event c6BadForm (some "u1") (Except.ok "url") none).1 (by decide)

/-- `String.prototype.startsWith` on the character lists. -/
def strStartsWith (s p : String) : Bool := p.data.isPrefixOf s.data

/-- One selected file together with the collaborators' replies for it:
the storage upload outcome (public URL or error) and the `videos` row
insert outcome (`none` = no error), consulted only if the file is
accepted and the previous step succeeded. -/
structure VideoFileCase where
  file : JsFile
  uploadResult : Except String String
  insertError : Option String

/-- A committed effect of `uploadVideos`: a stored object in the `videos`
bucket, or an inserted `videos` row. -/
inductive VideoOp
  | storageUpload (eventId : String) (file : JsFile) (url : String)
  | insertRow (eventId uid url : String)
deriving DecidableEq

/-- Committed effects and the alerts shown, after `uploadVideos` returns. -/
structure UploadState where
  ops : List VideoOp
  alerts : List String
deriving DecidableEq

/-- The per-file alert of the 80 MB size guard (event page, line 257). -/
def oversizedAlert (name : String) : String :=
  "El video \"" ++ name ++ "\" es muy pesado (máx 80MB)."

/-- Model of the `uploadVideos` loop (event page, lines 244-286): for
each file in order — skip silently unless the MIME type starts with
`video/`; alert and skip if the size exceeds `80 * 1024 * 1024`;
otherwise upload to storage, then insert the file's own `videos` row.  A
thrown upload or insert error leaves the loop (the `catch` shows the
error message) with the earlier files' effects committed and the
remaining files untouched. -/
def uploadVideos (eventId uid : String) : List VideoFileCase → UploadState
  | [] => { ops := [], alerts := [] }
  | c :: rest =>
    if !(strStartsWith c.file.mime "video/") then uploadVideos eventId uid rest
    else if 80 * 1024 * 1024 < c.file.size then
      { ops := (uploadVideos eventId uid rest).ops,
        alerts := oversizedAlert c.file.name
          :: (uploadVideos eventId uid rest).alerts }
    else
      match c.uploadResult with
      | Except.error e => { ops := [], alerts := [e] }
      | Except.ok url =>
        match c.insertError with
        | some e =>
          { ops := [VideoOp.storageUpload eventId c.file url], alerts := [e] }
        | none =>
          { ops := VideoOp.storageUpload eventId c.file url
              :: VideoOp.insertRow eventId uid url
              :: (uploadVideos eventId uid rest).ops,
            alerts := (uploadVideos eventId uid rest).alerts }

/-- C10: the head-file behaviour of `uploadVideos` — a non-`video/*`
file is skipped with no effect and no alert; an accepted but oversized
file only adds its alert, and the remaining files are still processed; an
accepted file uploads and then inserts its own row, in front of whatever
the remaining files commit; an upload error aborts with only its alert
and nothing committed for this or the remaining files; an insert error
aborts with the already-committed upload of this file kept and the
remaining files untouched. -/
theorem C10_upload_videos :
    (∀ (e u : String) (c : VideoFileCase) (rest : List VideoFileCase),
      strStartsWith c.file.mime "video/" = false →
      uploadVideos e u (c :: rest) = uploadVideos e u rest) ∧
    (∀ (e u : String) (c : VideoFileCase) (rest : List VideoFileCase),
      strStartsWith c.file.mime "video/" = true →
      80 * 1024 * 1024 < c.file.size →
      uploadVideos e u (c :: rest)
        = { ops := (uploadVideos e u rest).ops,
            alerts := oversizedAlert c.file.name
              :: (uploadVideos e u rest).alerts }) ∧
    (∀ (e u : String) (c : VideoFileCase) (rest : List VideoFileCase)
      (url : String),
      strStartsWith c.file.mime "video/" = true →
      ¬ 80 * 1024 * 1024 < c.file.size →
      c.uploadResult = Except.ok url → c.insertError = none →
      uploadVideos e u (c :: rest)
        = { ops := VideoOp.storageUpload e c.file url
              :: VideoOp.insertRow e u url :: (uploadVideos e u rest).ops,
            alerts := (uploadVideos e u rest).alerts }) ∧
    (∀ (e u : String) (c : VideoFileCase) (rest : List VideoFileCase)
      (err : String),
      strStartsWith c.file.mime "video/" = true →
      ¬ 80 * 1024 * 1024 < c.file.size →
      c.uploadResult = Except.error err →
      uploadVideos e u (c :: rest) = { ops := [], alerts := [err] }) ∧
    (∀ (e u : String) (c : VideoFileCase) (rest : List VideoFileCase)
      (url err : String),
      strStartsWith c.file.mime "video/" = true →
      ¬ 80 * 1024 * 1024 < c.file.size →
      c.uploadResult = Except.ok url → c.insertError = some err →
      uploadVideos e u (c :: rest)
        = { ops := [VideoOp.storageUpload e c.file url], alerts := [err] }) := by
  refine ⟨?_, ?_, ?_, ?_, ?_⟩
  · intro e u c rest hmime
    rw [uploadVideos, hmime]
    rfl
  · intro e u c rest hmime hsize
    rw [uploadVideos, hmime, if_neg (by simp), if_pos hsize]
  · intro e u c rest url hmime hsize hup hins
    rw [uploadVideos, hmime, if_neg (by simp), if_neg hsize, hup, hins]
  · intro e u c rest err hmime hsize hup
    rw [uploadVideos, hmime, if_neg (by simp), if_neg hsize, hup]
  · intro e u c rest url err hmime hsize hup hins
    rw [uploadVideos, hmime, if_neg (by simp), if_neg hsize, hup, hins]

/-- C10 witness: a file with MIME type `image/png` is skipped silently. -/
theorem C10_upload_videos_witness :
    uploadVideos "e1" "u1"
        [{ file := { name := "a.png", mime := "image/png", size := 10 },
           uploadResult := Except.ok "url", insertError := none }]
      = uploadVideos "e1" "u1" [] :=
  C10_upload_videos.1 "e1" "u1"
    { file := { name := "a.png", mime := "image/png", size := 10 },
      uploadResult := Except.ok "url", insertError := none } [] (by decide)

/-- A dateless event for the C7 witness. -/
def c7Event : EventRow :=
  { id := "e7", title := "picnic", location := none, link := none,
    cover_url := none, status := EvStatus.planned, created_at := 0,
    created_by := "u1", date_start := none, date_end := none }

/-- C7 witness: a dateless event is listed among the undated events. -/
theorem C7_selected_day_view_witness : c7Event ∈ eventsNoDate [c7Event] :=
  ((C7_selected_day_view [c7Event] 0).2.2.2.2 c7Event).mpr
    ⟨List.mem_singleton_self c7Event, rfl⟩
